import Mathlib

/-!
Verification of the persistence layer (`src/db.py`) of the Mergington High
School activities service.

The store is a SQLite file with three tables (`activities`, `enrollments`,
`schema_migrations`).  We embed a database state as explicit lists of rows and
translate each Python function of `db.py` into a Lean function on that state.
Machine details that matter are modelled explicitly:

* SQL text comparison (`ORDER BY`, BINARY collation) is byte-wise; on the
  ASCII/UTF-8 data involved this coincides with comparing the code-point
  sequences, embedded below as `charsLE`/`strLE`.
* `ORDER BY` is embedded as a stable insertion sort (`sortBy`).
* A raised Python exception is an `Except.error`; for the write operations the
  error value also carries the uncommitted store state at the moment of the
  raise.  The `with connection` block of `db.py` is sqlite3's connection
  context manager, which commits the transaction on a clean exit and rolls it
  back on an exception (and in neither case closes the connection); on a
  rolled-back error the on-disk state is the pre-call state.
-/

namespace SchoolDB

/-- One value of the `DEFAULT_ACTIVITIES` dict of `db.py`. -/
structure ActivityDetails where
  description : String
  schedule : String
  max_participants : Nat
  participants : List String
deriving Repr, DecidableEq

/-- The module-level `DEFAULT_ACTIVITIES` dict of `db.py`, in insertion
order (Python dicts preserve it). -/
def DEFAULT_ACTIVITIES : List (String × ActivityDetails) :=
  [ ("Chess Club",
      ⟨"Learn strategies and compete in chess tournaments",
       "Fridays, 3:30 PM - 5:00 PM", 12,
       ["michael@mergington.edu", "daniel@mergington.edu"]⟩),
    ("Programming Class",
      ⟨"Learn programming fundamentals and build software projects",
       "Tuesdays and Thursdays, 3:30 PM - 4:30 PM", 20,
       ["emma@mergington.edu", "sophia@mergington.edu"]⟩),
    ("Gym Class",
      ⟨"Physical education and sports activities",
       "Mondays, Wednesdays, Fridays, 2:00 PM - 3:00 PM", 30,
       ["john@mergington.edu", "olivia@mergington.edu"]⟩),
    ("Soccer Team",
      ⟨"Join the school soccer team and compete in matches",
       "Tuesdays and Thursdays, 4:00 PM - 5:30 PM", 22,
       ["liam@mergington.edu", "noah@mergington.edu"]⟩),
    ("Basketball Team",
      ⟨"Practice and play basketball with the school team",
       "Wednesdays and Fridays, 3:30 PM - 5:00 PM", 15,
       ["ava@mergington.edu", "mia@mergington.edu"]⟩),
    ("Art Club",
      ⟨"Explore your creativity through painting and drawing",
       "Thursdays, 3:30 PM - 5:00 PM", 15,
       ["amelia@mergington.edu", "harper@mergington.edu"]⟩),
    ("Drama Club",
      ⟨"Act, direct, and produce plays and performances",
       "Mondays and Wednesdays, 4:00 PM - 5:30 PM", 20,
       ["ella@mergington.edu", "scarlett@mergington.edu"]⟩),
    ("Math Club",
      ⟨"Solve challenging problems and participate in math competitions",
       "Tuesdays, 3:30 PM - 4:30 PM", 10,
       ["james@mergington.edu", "benjamin@mergington.edu"]⟩),
    ("Debate Team",
      ⟨"Develop public speaking and argumentation skills",
       "Fridays, 4:00 PM - 5:30 PM", 12,
       ["charlotte@mergington.edu", "henry@mergington.edu"]⟩) ]

/-- The three domain exception classes of `db.py`. -/
inductive DbError where
  | activityNotFoundError
  | alreadySignedUpError
  | notSignedUpError
deriving Repr, DecidableEq

/-- A row of the `activities` table. -/
structure Activity where
  id : Nat
  name : String
  description : String
  schedule : String
  max_participants : Nat
deriving Repr, DecidableEq

/-- A row of the `enrollments` table. -/
structure Enrollment where
  activity_id : Nat
  email : String
deriving Repr, DecidableEq

/-- The store: the three tables of the SQLite file, row lists in rowid
(insertion) order; `migrations` is the `version` column of
`schema_migrations` in insertion order. -/
structure DB where
  activities : List Activity
  enrollments : List Enrollment
  migrations : List String
deriving Repr, DecidableEq

/-- A store in which every table is empty (fresh file after the schema
exists). -/
def emptyDB : DB := ⟨[], [], []⟩

/-- SQLite's rowid assignment for a plain `INTEGER PRIMARY KEY`: one more
than the largest id in the table (`cursor.lastrowid` of the insert). -/
def nextActivityId (db : DB) : Nat :=
  (db.activities.map (fun a => a.id)).foldr max 0 + 1

/-- `SELECT id FROM activities WHERE name = ?` + `fetchone()`: the first row
whose name equals the argument exactly. -/
def findActivity (db : DB) (name : String) : Option Activity :=
  db.activities.find? (fun a => a.name == name)

/-- The SQL condition `activity_id = ? AND email = ?` shared by the lookup,
the delete and the uniqueness check. -/
def matchesPair (aid : Nat) (email : String) (r : Enrollment) : Bool :=
  r.activity_id == aid && r.email == email

/-- `SELECT 1 FROM enrollments WHERE activity_id = ? AND email = ?` +
`fetchone()` turned into a truth value. -/
def isEnrolled (db : DB) (aid : Nat) (email : String) : Bool :=
  db.enrollments.any (matchesPair aid email)

/-- `signup_for_activity` of `db.py`.  `.error (err, d)` means the Python
function raised `err` with `d` the uncommitted store at the raise (the
context manager then rolls back, so on disk the pre-call state survives). -/
def signup_for_activity (db : DB) (activity_name email : String) :
    Except (DbError × DB) DB :=
  match findActivity db activity_name with
  | none => .error (.activityNotFoundError, db)
  | some a =>
    if isEnrolled db a.id email then
      .error (.alreadySignedUpError, db)
    else
      .ok { db with enrollments := db.enrollments ++ [⟨a.id, email⟩] }

/-- `unregister_from_activity` of `db.py`: the `DELETE` runs first, then
`rowcount` (the number of rows the delete removed) is checked. -/
def unregister_from_activity (db : DB) (activity_name email : String) :
    Except (DbError × DB) DB :=
  match findActivity db activity_name with
  | none => .error (.activityNotFoundError, db)
  | some a =>
    let remaining := db.enrollments.filter (fun r => !(matchesPair a.id email r))
    let rowcount := db.enrollments.countP (matchesPair a.id email)
    if rowcount = 0 then
      .error (.notSignedUpError, { db with enrollments := remaining })
    else
      .ok { db with enrollments := remaining }

/-- `_seed_default_data` of `db.py`: count the `activities` rows; if any
exist do nothing, otherwise insert every default activity and, under its
fresh id, each email of its roster, in catalog order. -/
def _seed_default_data (db : DB) : DB :=
  if db.activities.length > 0 then db
  else
    DEFAULT_ACTIVITIES.foldl (fun acc nd =>
      let newId := nextActivityId acc
      let acc1 : DB :=
        { acc with activities := acc.activities ++
            [⟨newId, nd.1, nd.2.description, nd.2.schedule, nd.2.max_participants⟩] }
      nd.2.participants.foldl (fun acc2 email =>
        { acc2 with enrollments := acc2.enrollments ++ [⟨newId, email⟩] }) acc1) db

/-- The nine rows `_seed_default_data` inserts into `activities` on an empty
table (ids assigned 1..9 in catalog order). -/
def seededActivities : List Activity :=
  [ ⟨1, "Chess Club", "Learn strategies and compete in chess tournaments",
     "Fridays, 3:30 PM - 5:00 PM", 12⟩,
    ⟨2, "Programming Class", "Learn programming fundamentals and build software projects",
     "Tuesdays and Thursdays, 3:30 PM - 4:30 PM", 20⟩,
    ⟨3, "Gym Class", "Physical education and sports activities",
     "Mondays, Wednesdays, Fridays, 2:00 PM - 3:00 PM", 30⟩,
    ⟨4, "Soccer Team", "Join the school soccer team and compete in matches",
     "Tuesdays and Thursdays, 4:00 PM - 5:30 PM", 22⟩,
    ⟨5, "Basketball Team", "Practice and play basketball with the school team",
     "Wednesdays and Fridays, 3:30 PM - 5:00 PM", 15⟩,
    ⟨6, "Art Club", "Explore your creativity through painting and drawing",
     "Thursdays, 3:30 PM - 5:00 PM", 15⟩,
    ⟨7, "Drama Club", "Act, direct, and produce plays and performances",
     "Mondays and Wednesdays, 4:00 PM - 5:30 PM", 20⟩,
    ⟨8, "Math Club", "Solve challenging problems and participate in math competitions",
     "Tuesdays, 3:30 PM - 4:30 PM", 10⟩,
    ⟨9, "Debate Team", "Develop public speaking and argumentation skills",
     "Fridays, 4:00 PM - 5:30 PM", 12⟩ ]

/-- The eighteen rows `_seed_default_data` inserts into `enrollments` on an
empty `activities` table, in insertion order. -/
def seededEnrollments : List Enrollment :=
  [ ⟨1, "michael@mergington.edu"⟩, ⟨1, "daniel@mergington.edu"⟩,
    ⟨2, "emma@mergington.edu"⟩, ⟨2, "sophia@mergington.edu"⟩,
    ⟨3, "john@mergington.edu"⟩, ⟨3, "olivia@mergington.edu"⟩,
    ⟨4, "liam@mergington.edu"⟩, ⟨4, "noah@mergington.edu"⟩,
    ⟨5, "ava@mergington.edu"⟩, ⟨5, "mia@mergington.edu"⟩,
    ⟨6, "amelia@mergington.edu"⟩, ⟨6, "harper@mergington.edu"⟩,
    ⟨7, "ella@mergington.edu"⟩, ⟨7, "scarlett@mergington.edu"⟩,
    ⟨8, "james@mergington.edu"⟩, ⟨8, "benjamin@mergington.edu"⟩,
    ⟨9, "charlotte@mergington.edu"⟩, ⟨9, "henry@mergington.edu"⟩ ]

/-- A small store used to instantiate theorems: one activity, no
enrollments. -/
def dbA : DB := ⟨[⟨1, "Chess Club", "d", "s", 12⟩], [], []⟩

/-- If no enrollment row matches the pair, the delete's filter keeps the
whole table. -/
theorem filter_not_matches_eq_self (l : List Enrollment) (aid : Nat) (email : String)
    (h0 : l.countP (matchesPair aid email) = 0) :
    l.filter (fun r => !(matchesPair aid email r)) = l := by
  have hall := List.countP_eq_zero.mp h0
  refine List.filter_eq_self.mpr ?_
  intro r hr
  have h' := hall r hr
  cases hb : matchesPair aid email r with
  | false => simp [hb]
  | true => exact absurd hb h'

/-- C1: Enroll fails with ActivityNotFound exactly when no activity row is
named `A`; fails with AlreadyEnrolled exactly when an enrollment row for
(A's id, e) already exists; otherwise appends exactly the one row
(A's id, e); and a second Enroll right after a successful one fails with
AlreadyEnrolled leaving the store as the first one left it. -/
theorem signup_spec (db : DB) (A e : String) :
    (signup_for_activity db A e = .error (.activityNotFoundError, db) ↔
      ∀ a ∈ db.activities, a.name ≠ A)
    ∧ (signup_for_activity db A e = .error (.alreadySignedUpError, db) ↔
      ∃ a, findActivity db A = some a ∧ isEnrolled db a.id e = true)
    ∧ (∀ a, findActivity db A = some a → isEnrolled db a.id e = false →
      signup_for_activity db A e =
        .ok { db with enrollments := db.enrollments ++ [⟨a.id, e⟩] })
    ∧ (∀ db1, signup_for_activity db A e = .ok db1 →
      signup_for_activity db1 A e = .error (.alreadySignedUpError, db1)
      ∧ ∃ a, findActivity db A = some a
          ∧ db1.enrollments = db.enrollments ++ [⟨a.id, e⟩]) := by
  refine ⟨?_, ?_, ?_, ?_⟩
  · cases hf : findActivity db A with
    | none =>
      simp only [signup_for_activity, hf]
      constructor
      · intro _
        have h := List.find?_eq_none.mp hf
        intro a ha
        simpa using h a ha
      · intro _; trivial
    | some a =>
      simp only [signup_for_activity, hf]
      constructor
      · intro h
        by_cases he : isEnrolled db a.id e <;> simp [he] at h
      · intro h
        exfalso
        have ha := List.find?_some hf
        have hmem := List.mem_of_find?_eq_some hf
        exact h a hmem (by simpa using ha)
  · cases hf : findActivity db A with
    | none =>
      simp [signup_for_activity, hf]
    | some a =>
      by_cases he : isEnrolled db a.id e <;>
        simp [signup_for_activity, hf, he]
  · intro a hf he
    simp [signup_for_activity, hf, he]
  · intro db1 h
    cases hf : findActivity db A with
    | none => simp [signup_for_activity, hf] at h
    | some a =>
      by_cases he : isEnrolled db a.id e
      · simp [signup_for_activity, hf, he] at h
      · simp only [signup_for_activity, hf, he, Bool.false_eq_true, if_false] at h
        have hdb1 : db1 = { db with enrollments := db.enrollments ++ [⟨a.id, e⟩] } := by
          simpa using h.symm
        subst hdb1
        refine ⟨?_, ⟨a, rfl, rfl⟩⟩
        have hf1 : findActivity { db with enrollments := db.enrollments ++ [⟨a.id, e⟩] } A
            = some a := hf
        have he1 : isEnrolled { db with enrollments := db.enrollments ++ [⟨a.id, e⟩] } a.id e
            = true := by
          refine List.any_eq_true.mpr ⟨⟨a.id, e⟩, ?_, ?_⟩
          · simp
          · simp [matchesPair]
        simp [signup_for_activity, hf1, he1]

/-- Witness for `signup_spec`: enrolling a fresh email in the one-activity
store succeeds and appends the one row, and repeating it fails with
AlreadyEnrolled. -/
theorem signup_spec_witness :
    signup_for_activity dbA "Chess Club" "zoe@mergington.edu"
      = .ok { dbA with enrollments := dbA.enrollments ++ [⟨1, "zoe@mergington.edu"⟩] }
    ∧ signup_for_activity
        { dbA with enrollments := dbA.enrollments ++ [⟨1, "zoe@mergington.edu"⟩] }
        "Chess Club" "zoe@mergington.edu"
      = .error (.alreadySignedUpError,
          { dbA with enrollments := dbA.enrollments ++ [⟨1, "zoe@mergington.edu"⟩] }) := by
  have h1 := (signup_spec dbA "Chess Club" "zoe@mergington.edu").2.2.1
    ⟨1, "Chess Club", "d", "s", 12⟩ (by decide) (by decide)
  have h2 := ((signup_spec dbA "Chess Club" "zoe@mergington.edu").2.2.2
    { dbA with enrollments := dbA.enrollments ++ [⟨1, "zoe@mergington.edu"⟩] } h1).1
  exact ⟨h1, h2⟩

/-- C2: Unenroll fails with ActivityNotFound exactly when no activity is
named `A`; otherwise it performs the delete and fails with NotEnrolled
exactly when the delete removed zero rows (delete-then-check-count), else
succeeds with the matching rows removed; in particular without a prior
enrollment it fails with NotEnrolled. -/
theorem unregister_spec (db : DB) (A e : String) :
    (unregister_from_activity db A e = .error (.activityNotFoundError, db) ↔
      ∀ a ∈ db.activities, a.name ≠ A)
    ∧ (∀ a, findActivity db A = some a →
      (db.enrollments.countP (matchesPair a.id e) = 0 →
        unregister_from_activity db A e = .error (.notSignedUpError, db))
      ∧ (db.enrollments.countP (matchesPair a.id e) ≠ 0 →
        unregister_from_activity db A e =
          .ok { db with enrollments :=
            db.enrollments.filter (fun r => !(matchesPair a.id e r)) }))
    ∧ (∀ a, findActivity db A = some a → isEnrolled db a.id e = false →
      unregister_from_activity db A e = .error (.notSignedUpError, db)) := by
  refine ⟨?_, ?_, ?_⟩
  · cases hf : findActivity db A with
    | none =>
      simp only [unregister_from_activity, hf]
      constructor
      · intro _
        have h := List.find?_eq_none.mp hf
        intro a ha
        simpa using h a ha
      · intro _; trivial
    | some a =>
      simp only [unregister_from_activity, hf]
      constructor
      · intro h
        by_cases h0 : db.enrollments.countP (matchesPair a.id e) = 0 <;>
          simp [h0] at h
      · intro h
        exfalso
        have ha := List.find?_some hf
        have hmem := List.mem_of_find?_eq_some hf
        exact h a hmem (by simpa using ha)
  · intro a hf
    constructor
    · intro h0
      have hfe := filter_not_matches_eq_self db.enrollments a.id e h0
      simp [unregister_from_activity, hf, h0, hfe]
    · intro h0
      simp [unregister_from_activity, hf, h0]
  · intro a hf he
    have h0 : db.enrollments.countP (matchesPair a.id e) = 0 := by
      refine List.countP_eq_zero.mpr ?_
      intro r hr hmatch
      have hany : db.enrollments.any (matchesPair a.id e) = true :=
        List.any_eq_true.mpr ⟨r, hr, hmatch⟩
      rw [isEnrolled] at he
      simp [hany] at he
    have hfe := filter_not_matches_eq_self db.enrollments a.id e h0
    simp [unregister_from_activity, hf, h0, hfe]

/-- Witness for `unregister_spec`: unregistering from the one-activity store
with no enrollments fails with NotEnrolled, and with an unknown name fails
with ActivityNotFound. -/
theorem unregister_spec_witness :
    unregister_from_activity dbA "Chess Club" "zoe@mergington.edu"
      = .error (.notSignedUpError, dbA)
    ∧ unregister_from_activity dbA "Knitting" "zoe@mergington.edu"
      = .error (.activityNotFoundError, dbA) := by
  constructor
  · exact (unregister_spec dbA "Chess Club" "zoe@mergington.edu").2.2
      ⟨1, "Chess Club", "d", "s", 12⟩ (by decide) (by decide)
  · exact ((unregister_spec dbA "Knitting" "zoe@mergington.edu").1).mpr (by decide)

/-- C9: the enroll path never reads `max_participants`: a found activity and
a not-yet-enrolled email always enroll successfully, also when the current
enrollment count has already reached or passed the capacity. -/
theorem no_capacity_enforcement (db : DB) (A e : String) (a : Activity)
    (hfind : findActivity db A = some a)
    (hne : isEnrolled db a.id e = false)
    (_hfull : a.max_participants ≤
      (db.enrollments.filter (fun r => r.activity_id == a.id)).length) :
    signup_for_activity db A e =
      .ok { db with enrollments := db.enrollments ++ [⟨a.id, e⟩] } := by
  simp [signup_for_activity, hfind, hne]

/-- A store whose one activity (capacity 1) is already at capacity. -/
def dbFull : DB := ⟨[⟨1, "Chess Club", "d", "s", 1⟩], [⟨1, "amy@mergington.edu"⟩], []⟩

/-- Witness for `no_capacity_enforcement`: the capacity-1 activity already
holding one participant still accepts a second enrollment. -/
theorem no_capacity_enforcement_witness :
    signup_for_activity dbFull "Chess Club" "zoe@mergington.edu"
      = .ok { dbFull with enrollments := dbFull.enrollments ++ [⟨1, "zoe@mergington.edu"⟩] } :=
  no_capacity_enforcement dbFull "Chess Club" "zoe@mergington.edu"
    ⟨1, "Chess Club", "d", "s", 1⟩ (by decide) (by decide) (by decide)

/-- C10: whenever Enroll or Unenroll raises a domain error, the store state
carried at the raise equals the pre-call state: the failed operation
inserted, deleted and modified nothing (and the context manager's rollback
then discards the empty transaction). -/
theorem error_paths_unchanged (db : DB) (A e : String) :
    (∀ err d, signup_for_activity db A e = .error (err, d) → d = db)
    ∧ (∀ err d, unregister_from_activity db A e = .error (err, d) → d = db) := by
  constructor
  · intro err d h
    cases hf : findActivity db A with
    | none =>
      simp [signup_for_activity, hf] at h
      exact h.2.symm
    | some a =>
      by_cases he : isEnrolled db a.id e <;> simp [signup_for_activity, hf, he] at h
      exact h.2.symm
  · intro err d h
    cases hf : findActivity db A with
    | none =>
      simp [unregister_from_activity, hf] at h
      exact h.2.symm
    | some a =>
      by_cases h0 : db.enrollments.countP (matchesPair a.id e) = 0
      · have hfe := filter_not_matches_eq_self db.enrollments a.id e h0
        simp [unregister_from_activity, hf, h0, hfe] at h
        exact h.2.symm
      · simp [unregister_from_activity, hf, h0] at h

/-- Witness for `error_paths_unchanged`: the NotEnrolled failure on the
one-activity store carries back exactly the pre-call store. -/
theorem error_paths_unchanged_witness : dbA = dbA :=
  (error_paths_unchanged dbA "Chess Club" "zoe@mergington.edu").2
    .notSignedUpError dbA (by rfl)

/-- The early return of the seeder: any pre-existing activity row makes it
a no-op. -/
theorem seed_of_nonempty (db : DB) (hne : db.activities ≠ []) :
    _seed_default_data db = db := by
  have hlen : 0 < db.activities.length := List.length_pos.mpr hne
  simp [_seed_default_data, hlen]

/-- The insert pass of the seeder on an empty `activities` table. -/
theorem seed_of_empty (db : DB) (hemp : db.activities = []) :
    _seed_default_data db = { db with activities := seededActivities, enrollments := db.enrollments ++ seededEnrollments } := by
  rcases db with ⟨acts, enrs, migs⟩
  simp only at hemp
  subst hemp
  simp [_seed_default_data, DEFAULT_ACTIVITIES, nextActivityId,
    seededActivities, seededEnrollments, List.append_assoc]

/-- C3: the seeder runs exactly on an empty `activities` table: any
pre-existing activity row (whatever it is) suppresses all inserts, and on
an empty table the whole catalog with its rosters is inserted in one
pass. -/
theorem seed_iff_empty (db : DB) :
    (db.activities ≠ [] → _seed_default_data db = db)
    ∧ (db.activities = [] →
      _seed_default_data db = { db with activities := seededActivities, enrollments := db.enrollments ++ seededEnrollments }) :=
  ⟨seed_of_nonempty db, seed_of_empty db⟩

/-- Witness for `seed_iff_empty`: seeding the empty store produces exactly
the seeded rows, and seeding the one-activity store changes nothing. -/
theorem seed_iff_empty_witness :
    _seed_default_data emptyDB
      = { emptyDB with activities := seededActivities, enrollments := seededEnrollments }
    ∧ _seed_default_data dbA = dbA := by
  constructor
  · simpa using (seed_iff_empty emptyDB).2 rfl
  · exact (seed_iff_empty dbA).1 (by decide)

/-- Byte-order comparison of two code-point lists, the text comparison SQL
`ORDER BY` performs under SQLite's default BINARY collation (on the
UTF-8 data involved, code-point order and byte order agree). -/
def charsLE : List Char → List Char → Bool
  | [], _ => true
  | _ :: _, [] => false
  | a :: as, b :: bs =>
    decide (a.toNat < b.toNat) || (a.toNat == b.toNat && charsLE as bs)

/-- `ORDER BY` comparison of two text values. -/
def strLE (s t : String) : Bool := charsLE s.data t.data

theorem charsLE_total (l1 : List Char) : ∀ l2,
    charsLE l1 l2 = true ∨ charsLE l2 l1 = true := by
  induction l1 with
  | nil => intro l2; left; rfl
  | cons a as ih =>
    intro l2
    cases l2 with
    | nil => right; rfl
    | cons b bs =>
      rcases Nat.lt_trichotomy a.toNat b.toNat with h | h | h
      · left; simp [charsLE, h]
      · rcases ih bs with h' | h'
        · left; simp [charsLE, h, h']
        · right; simp [charsLE, h.symm, h']
      · right; simp [charsLE, h]

theorem charsLE_trans (l1 : List Char) : ∀ l2 l3, charsLE l1 l2 = true →
    charsLE l2 l3 = true → charsLE l1 l3 = true := by
  induction l1 with
  | nil => intro l2 l3 _ _; rfl
  | cons a as ih =>
    intro l2 l3 h12 h23
    cases l2 with
    | nil => simp [charsLE] at h12
    | cons b bs =>
      cases l3 with
      | nil => simp [charsLE] at h23
      | cons c cs =>
        simp only [charsLE, Bool.or_eq_true, Bool.and_eq_true, decide_eq_true_eq,
          beq_iff_eq] at h12 h23 ⊢
        rcases h12 with h12 | ⟨hab, h12⟩
        · rcases h23 with h23 | ⟨hbc, h23⟩
          · exact Or.inl (by omega)
          · exact Or.inl (by omega)
        · rcases h23 with h23 | ⟨hbc, h23⟩
          · exact Or.inl (by omega)
          · exact Or.inr ⟨by omega, ih bs cs h12 h23⟩

theorem charsLE_antisymm (l1 : List Char) : ∀ l2, charsLE l1 l2 = true →
    charsLE l2 l1 = true → l1 = l2 := by
  induction l1 with
  | nil =>
    intro l2 _ h21
    cases l2 with
    | nil => rfl
    | cons b bs => simp [charsLE] at h21
  | cons a as ih =>
    intro l2 h12 h21
    cases l2 with
    | nil => simp [charsLE] at h12
    | cons b bs =>
      simp only [charsLE, Bool.or_eq_true, Bool.and_eq_true, decide_eq_true_eq,
        beq_iff_eq] at h12 h21
      have hab : a.toNat = b.toNat := by
        rcases h12 with h12 | ⟨h, _⟩
        · rcases h21 with h21 | ⟨h', _⟩ <;> omega
        · exact h
      have hcc : a = b := Char.eq_of_val_eq (UInt32.ext hab)
      subst hcc
      have h12' : charsLE as bs = true := by
        rcases h12 with h12 | ⟨_, h⟩
        · omega
        · exact h
      have h21' : charsLE bs as = true := by
        rcases h21 with h21 | ⟨_, h⟩
        · omega
        · exact h
      rw [ih bs h12' h21']

theorem strLE_total (s t : String) : strLE s t = true ∨ strLE t s = true :=
  charsLE_total s.data t.data

theorem strLE_trans (s t u : String) (h1 : strLE s t = true) (h2 : strLE t u = true) :
    strLE s u = true :=
  charsLE_trans s.data t.data u.data h1 h2

theorem strLE_antisymm (s t : String) (h1 : strLE s t = true) (h2 : strLE t s = true) :
    s = t :=
  String.ext (charsLE_antisymm s.data t.data h1 h2)

/-- One step of the stable sort modelling `ORDER BY` / `sorted()`: insert
`x` in front of the first element it compares `≤` to. -/
def insertLE {α : Type} (le : α → α → Bool) (x : α) : List α → List α
  | [] => [x]
  | y :: ys => if le x y then x :: y :: ys else y :: insertLE le x ys

/-- Stable insertion sort: the relational engine's `ORDER BY` (and Python's
`sorted`) as a function on row lists. -/
def sortBy {α : Type} (le : α → α → Bool) : List α → List α
  | [] => []
  | x :: xs => insertLE le x (sortBy le xs)

theorem insertLE_perm {α : Type} (le : α → α → Bool) (x : α) (l : List α) :
    (insertLE le x l).Perm (x :: l) := by
  induction l with
  | nil => simp [insertLE]
  | cons y ys ih =>
    by_cases h : le x y = true
    · simp [insertLE, h]
    · simp only [insertLE, h, Bool.false_eq_true, if_false]
      exact List.Perm.trans (List.Perm.cons y ih) (List.Perm.swap x y ys)

theorem sortBy_perm {α : Type} (le : α → α → Bool) (l : List α) :
    (sortBy le l).Perm l := by
  induction l with
  | nil => simp [sortBy]
  | cons x xs ih =>
    exact (insertLE_perm le x (sortBy le xs)).trans (List.Perm.cons x ih)

theorem pairwise_insertLE {α : Type} (le : α → α → Bool)
    (htot : ∀ a b, le a b = true ∨ le b a = true)
    (htrans : ∀ a b c, le a b = true → le b c = true → le a c = true)
    (x : α) (l : List α) (hl : l.Pairwise (fun a b => le a b = true)) :
    (insertLE le x l).Pairwise (fun a b => le a b = true) := by
  induction l with
  | nil => simp [insertLE]
  | cons y ys ih =>
    rcases List.pairwise_cons.mp hl with ⟨hy, hys⟩
    by_cases h : le x y = true
    · simp only [insertLE, h, if_true]
      refine List.pairwise_cons.mpr ⟨?_, hl⟩
      intro z hz
      rcases List.mem_cons.mp hz with hz | hz
      · exact hz ▸ h
      · exact htrans x y z h (hy z hz)
    · simp only [insertLE, h, Bool.false_eq_true, if_false]
      refine List.pairwise_cons.mpr ⟨?_, ih hys⟩
      intro z hz
      have hyx : le y x = true := by
        rcases htot x y with h' | h'
        · exact absurd h' h
        · exact h'
      have hz' := (insertLE_perm le x ys).mem_iff.mp hz
      rcases List.mem_cons.mp hz' with hz' | hz'
      · exact hz' ▸ hyx
      · exact hy z hz'

theorem pairwise_sortBy {α : Type} (le : α → α → Bool)
    (htot : ∀ a b, le a b = true ∨ le b a = true)
    (htrans : ∀ a b c, le a b = true → le b c = true → le a c = true)
    (l : List α) : (sortBy le l).Pairwise (fun a b => le a b = true) := by
  induction l with
  | nil => simp [sortBy]
  | cons x xs ih => exact pairwise_insertLE le htot htrans x (sortBy le xs) ih

/-- A row of the `LEFT JOIN` in `get_activities`: activity columns plus the
joined email, `none` when no enrollment row matched (SQL NULL). -/
structure JoinRow where
  name : String
  description : String
  schedule : String
  max_participants : Nat
  email : Option String
deriving Repr, DecidableEq

/-- The join rows one activity contributes: one row per matching enrollment,
or a single NULL-email row when it has none (left-join semantics). -/
def rowsFor (db : DB) (a : Activity) : List JoinRow :=
  match db.enrollments.filter (fun r => r.activity_id == a.id) with
  | [] => [⟨a.name, a.description, a.schedule, a.max_participants, none⟩]
  | es => es.map (fun r => ⟨a.name, a.description, a.schedule, a.max_participants, some r.email⟩)

/-- All rows of the `LEFT JOIN`, before `ORDER BY` (table-scan order). -/
def allRows (db : DB) : List JoinRow :=
  db.activities.flatMap (rowsFor db)

/-- `ORDER BY enrollments.email` comparison: SQL NULL sorts before any
text. -/
def emailLE : Option String → Option String → Bool
  | none, _ => true
  | some _, none => false
  | some x, some y => strLE x y

/-- `ORDER BY activities.name, enrollments.email` comparison. -/
def rowLE (r1 r2 : JoinRow) : Bool :=
  if r1.name == r2.name then emailLE r1.email r2.email else strLE r1.name r2.name

/-- The rows `get_activities` fetches: the left join ordered by
(name, email). -/
def queryRows (db : DB) : List JoinRow := sortBy rowLE (allRows db)

/-- The value built per activity by the grouping loop of `get_activities`. -/
structure ActivityInfo where
  description : String
  schedule : String
  max_participants : Nat
  participants : List String
deriving Repr, DecidableEq

/-- The loop body's `if row["email"]:` Python truthiness test: NULL (None)
and the empty string are both falsy and contribute no participant. -/
def emailCell : Option String → List String
  | none => []
  | some e => if e == "" then [] else [e]

/-- One iteration of the grouping loop of `get_activities` over the ordered
rows: a Python dict is an association list keyed by activity name in
insertion order; a missing key is inserted at the end, an existing key has
the row's email appended to its participants. -/
def insertRow (acc : List (String × ActivityInfo)) (r : JoinRow) :
    List (String × ActivityInfo) :=
  match acc with
  | [] => [(r.name, ⟨r.description, r.schedule, r.max_participants, emailCell r.email⟩)]
  | (n, info) :: rest =>
    if n == r.name then
      (n, { info with participants := info.participants ++ emailCell r.email }) :: rest
    else (n, info) :: insertRow rest r

/-- `get_activities` of `db.py`: fetch the ordered join rows, then group
them into the name-keyed mapping. -/
def get_activities (db : DB) : List (String × ActivityInfo) :=
  (queryRows db).foldl insertRow []

/-- The participant emails the grouping loop accumulates for `name` from a
row list: the truthy emails of the rows carrying that name, in row order. -/
def gatherEmails (rows : List JoinRow) (name : String) : List String :=
  (rows.filter (fun r => r.name == name)).flatMap (fun r => emailCell r.email)

/-- Effect of one grouping step on the entry of any fixed `name`. -/
theorem lookup_insertRow (r : JoinRow) (name : String) :
    ∀ (acc : List (String × ActivityInfo)),
    (insertRow acc r).lookup name =
      if r.name = name then
        match acc.lookup name with
        | some info => some { info with participants := info.participants ++ emailCell r.email }
        | none => some ⟨r.description, r.schedule, r.max_participants, emailCell r.email⟩
      else acc.lookup name := by
  intro acc
  induction acc with
  | nil =>
    by_cases h : r.name = name
    · simp [insertRow, List.lookup, h]
    · have hb : (name == r.name) = false := beq_false_of_ne (fun hh => h hh.symm)
      simp [insertRow, List.lookup, h, hb]
  | cons p rest ih =>
    rcases p with ⟨n, info⟩
    by_cases hn : n = r.name
    · by_cases h : r.name = name
      · have hnn : n = name := hn.trans h
        have hb1 : (n == r.name) = true := beq_iff_eq.mpr hn
        have hb2 : (name == n) = true := beq_iff_eq.mpr hnn.symm
        simp [insertRow, List.lookup, hb1, hb2, h, hnn]
      · have hnn : ¬(n = name) := fun hh => h (hn.symm.trans hh)
        have hb1 : (n == r.name) = true := beq_iff_eq.mpr hn
        have hb2 : (name == n) = false :=
          beq_false_of_ne (fun hh => hnn hh.symm)
        simp [insertRow, List.lookup, hb1, hb2, h, hnn]
    · have hb1 : (n == r.name) = false := beq_false_of_ne hn
      by_cases h : n = name
      · have hrn : ¬(r.name = name) := fun hh => hn (h.trans hh.symm)
        have hb2 : (name == n) = true := beq_iff_eq.mpr h.symm
        simp [insertRow, List.lookup, hb1, hb2, hrn]
      · have hb2 : (name == n) = false := beq_false_of_ne (fun hh => h hh.symm)
        simp [insertRow, List.lookup, hb1, hb2, ih]

/-- The grouping loop, characterized per key: starting from accumulator
`acc`, the final entry of `name` holds the fields of the first row named
`name` (or the pre-existing entry) and the gathered emails in row order. -/
theorem lookup_foldl_insertRow (name : String) :
    ∀ (rows : List JoinRow) (acc : List (String × ActivityInfo)),
    (rows.foldl insertRow acc).lookup name =
      match acc.lookup name with
      | some info => some { info with participants := info.participants ++ gatherEmails rows name }
      | none =>
        (rows.find? (fun r => r.name == name)).map
          (fun r0 => ⟨r0.description, r0.schedule, r0.max_participants, gatherEmails rows name⟩) := by
  intro rows
  induction rows with
  | nil =>
    intro acc
    cases hacc : acc.lookup name <;> simp [gatherEmails, hacc]
  | cons r rows ih =>
    intro acc
    simp only [List.foldl_cons]
    rw [ih (insertRow acc r), lookup_insertRow r name acc]
    by_cases h : r.name = name
    · rw [if_pos h]
      cases hacc : acc.lookup name with
      | some info =>
        have hg : gatherEmails (r :: rows) name = emailCell r.email ++ gatherEmails rows name := by
          simp [gatherEmails, List.filter_cons, h]
        simp [hg, List.append_assoc]
      | none =>
        have hg : gatherEmails (r :: rows) name = emailCell r.email ++ gatherEmails rows name := by
          simp [gatherEmails, List.filter_cons, h]
        have hfind : (r :: rows).find? (fun x => x.name == name) = some r := by
          simp [List.find?_cons, h]
        simp [hg, hfind]
    · rw [if_neg h]
      have hg : gatherEmails (r :: rows) name = gatherEmails rows name := by
        simp [gatherEmails, List.filter_cons, h]
      have hfind : (r :: rows).find? (fun x => x.name == name)
          = rows.find? (fun x => x.name == name) := by
        simp [List.find?_cons, h]
      rw [hg, hfind]

/-- Every join row an activity contributes carries that activity's name. -/
theorem rowsFor_name (db : DB) (a : Activity) (r : JoinRow) (hr : r ∈ rowsFor db a) :
    r.name = a.name := by
  unfold rowsFor at hr
  cases hfe : db.enrollments.filter (fun x => x.activity_id == a.id) with
  | nil =>
    rw [hfe] at hr
    simp at hr
    rw [hr]
  | cons e es =>
    rw [hfe] at hr
    simp only [List.mem_map] at hr
    obtain ⟨x, _, heq⟩ := hr
    rw [← heq]

/-- Under unique activity names, filtering the join by one activity's name
leaves exactly that activity's rows. -/
theorem filter_flatMap_rowsFor (db : DB) (a : Activity) : ∀ (acts : List Activity),
    a ∈ acts → acts.Pairwise (fun x y => x.name ≠ y.name) →
    (acts.flatMap (rowsFor db)).filter (fun r => r.name == a.name) = rowsFor db a := by
  intro acts
  induction acts with
  | nil => intro h _; simp at h
  | cons b bs ih =>
    intro hmem hpw
    rcases List.pairwise_cons.mp hpw with ⟨hb, hbs⟩
    rcases List.mem_cons.mp hmem with rfl | hmem'
    · have h1 : (rowsFor db a).filter (fun r => r.name == a.name) = rowsFor db a := by
        refine List.filter_eq_self.mpr ?_
        intro r hr
        simp [rowsFor_name db a r hr]
      have h2 : (bs.flatMap (rowsFor db)).filter (fun r => r.name == a.name) = [] := by
        refine List.filter_eq_nil_iff.mpr ?_
        intro r hr
        rcases List.mem_flatMap.mp hr with ⟨c, hc, hrc⟩
        have h3 : r.name = c.name := rowsFor_name db c r hrc
        have h4 : a.name ≠ c.name := hb c hc
        simp [h3]
        exact fun hh => h4 hh.symm
      simp [List.flatMap_cons, List.filter_append, h1, h2]
    · have hbn : b.name ≠ a.name := hb a hmem'
      have h1 : (rowsFor db b).filter (fun r => r.name == a.name) = [] := by
        refine List.filter_eq_nil_iff.mpr ?_
        intro r hr
        have h3 : r.name = b.name := rowsFor_name db b r hr
        simp [h3]
        exact hbn
      simp [List.flatMap_cons, List.filter_append, h1, ih hmem' hbs]

/-- A list whose filtering is a singleton has that element as its first
match. -/
theorem find?_of_filter_singleton {α : Type} (p : α → Bool) (x : α) : ∀ (l : List α),
    l.filter p = [x] → l.find? p = some x := by
  intro l
  induction l with
  | nil => intro h; simp at h
  | cons y ys ih =>
    intro h
    by_cases hy : p y = true
    · rw [List.filter_cons_of_pos hy] at h
      have h' : y = x ∧ ys.filter p = [] := by simpa using h
      rw [List.find?_cons_of_pos _ hy, h'.1]
    · rw [List.filter_cons_of_neg (by simpa using hy)] at h
      rw [List.find?_cons_of_neg _ (by simpa using hy)]
      exact ih h

/-- With unique names and no enrollments for `a`, the ordered join holds
exactly one row named `a.name`: the NULL-email row of `a`. -/
theorem filter_queryRows (db : DB) (a : Activity)
    (hmem : a ∈ db.activities)
    (hpw : db.activities.Pairwise (fun x y => x.name ≠ y.name))
    (hzero : db.enrollments.filter (fun r => r.activity_id == a.id) = []) :
    (queryRows db).filter (fun r => r.name == a.name)
      = [⟨a.name, a.description, a.schedule, a.max_participants, none⟩] := by
  have hperm := (sortBy_perm rowLE (allRows db)).filter (fun r => r.name == a.name)
  unfold allRows at hperm
  rw [filter_flatMap_rowsFor db a db.activities hmem hpw] at hperm
  have hone : rowsFor db a = [⟨a.name, a.description, a.schedule, a.max_participants, none⟩] := by
    unfold rowsFor
    rw [hzero]
  rw [hone] at hperm
  unfold queryRows allRows
  exact List.perm_singleton.mp hperm

/-- C4: an activity with zero enrollments still appears in the listing,
with its description, schedule and capacity and an empty participant list
(left-join semantics).  Unique activity names — the schema's UNIQUE
constraint — are assumed of the store. -/
theorem left_join_keeps_empty_activities (db : DB) (a : Activity)
    (hmem : a ∈ db.activities)
    (hnames : (db.activities.map (fun x => x.name)).Nodup)
    (hzero : db.enrollments.filter (fun r => r.activity_id == a.id) = []) :
    (get_activities db).lookup a.name
      = some ⟨a.description, a.schedule, a.max_participants, []⟩ := by
  have hpw : db.activities.Pairwise (fun x y => x.name ≠ y.name) := by
    have h' := hnames
    unfold List.Nodup at h'
    rw [List.pairwise_map] at h'
    exact h'
  have hfilter := filter_queryRows db a hmem hpw hzero
  have hfind : (queryRows db).find? (fun r => r.name == a.name)
      = some ⟨a.name, a.description, a.schedule, a.max_participants, none⟩ :=
    find?_of_filter_singleton _ _ _ hfilter
  have hgather : gatherEmails (queryRows db) a.name = [] := by
    unfold gatherEmails
    rw [hfilter]
    simp [emailCell]
  unfold get_activities
  rw [lookup_foldl_insertRow a.name (queryRows db) []]
  simp [List.lookup, hfind, hgather]

/-- Witness for `left_join_keeps_empty_activities`: the one-activity store
with no enrollments lists "Chess Club" with an empty roster. -/
theorem left_join_keeps_empty_activities_witness :
    (get_activities dbA).lookup "Chess Club" = some ⟨"d", "s", 12, []⟩ :=
  left_join_keeps_empty_activities dbA ⟨1, "Chess Club", "d", "s", 12⟩
    (by decide) (by decide) (by decide)

/-- A migration script as the runner sees it: its filename (the version
identifier) together with the effect running its SQL with `executescript`
has on the store; `.error` models a SQL error raised mid-script. -/
def MigrationScript : Type := String × (DB → Except Unit DB)

/-- `sorted(MIGRATIONS_DIR.glob("*.sql"))`: the scripts in lexical filename
order. -/
def sortScripts (scripts : List MigrationScript) : List MigrationScript :=
  sortBy (fun p q => strLE p.1 q.1) scripts

/-- The migration loop of `_apply_migrations`, with `applied` the snapshot
of recorded versions read once before the loop: a recorded script is
skipped; otherwise its statements run and only then its version row is
inserted; a raised SQL error propagates immediately (no version row for the
failing script). -/
def applyScriptsFrom (applied : List String) : List MigrationScript → DB → Except Unit DB
  | [], db => .ok db
  | (v, f) :: rest, db =>
    if v ∈ applied then applyScriptsFrom applied rest db
    else
      match f db with
      | .ok db1 => applyScriptsFrom applied rest { db1 with migrations := db1.migrations ++ [v] }
      | .error e => .error e

/-- `_apply_migrations` of `db.py` over a given script directory. -/
def _apply_migrations (scripts : List MigrationScript) (db : DB) : Except Unit DB :=
  applyScriptsFrom db.migrations (sortScripts scripts) db

/-- `initialize_database` of `db.py`: migrations then seeding inside one
`with connection` block.  `.error` means the exception propagated out of
the block, whose exit then rolls the transaction back, leaving the pre-call
store on disk. -/
def initialize_database (scripts : List MigrationScript) (db : DB) : Except Unit DB :=
  (_apply_migrations scripts db).map _seed_default_data

/-- Modelled from the spec: the repository's `migrations/` directory of
versioned SQL scripts is not under src/ (only `db.py`, which reads it, is).
Per the spec it holds lexically ordered schema-creation scripts; the schema
being implicit in `DB`, such a script's effect on the row data is the
identity. -/
def initialMigrations : List MigrationScript := [("001_initial.sql", fun db => .ok db)]

/-- The store after initializing a fresh file: schema created, catalog
seeded. -/
def freshDB : DB := ⟨seededActivities, seededEnrollments, ["001_initial.sql"]⟩

/-- The listing of the fresh store: the nine built-in activities keyed in
name order, each roster in email order. -/
def freshCatalog : List (String × ActivityInfo) :=
  [ ("Art Club", ⟨"Explore your creativity through painting and drawing",
      "Thursdays, 3:30 PM - 5:00 PM", 15,
      ["amelia@mergington.edu", "harper@mergington.edu"]⟩),
    ("Basketball Team", ⟨"Practice and play basketball with the school team",
      "Wednesdays and Fridays, 3:30 PM - 5:00 PM", 15,
      ["ava@mergington.edu", "mia@mergington.edu"]⟩),
    ("Chess Club", ⟨"Learn strategies and compete in chess tournaments",
      "Fridays, 3:30 PM - 5:00 PM", 12,
      ["daniel@mergington.edu", "michael@mergington.edu"]⟩),
    ("Debate Team", ⟨"Develop public speaking and argumentation skills",
      "Fridays, 4:00 PM - 5:30 PM", 12,
      ["charlotte@mergington.edu", "henry@mergington.edu"]⟩),
    ("Drama Club", ⟨"Act, direct, and produce plays and performances",
      "Mondays and Wednesdays, 4:00 PM - 5:30 PM", 20,
      ["ella@mergington.edu", "scarlett@mergington.edu"]⟩),
    ("Gym Class", ⟨"Physical education and sports activities",
      "Mondays, Wednesdays, Fridays, 2:00 PM - 3:00 PM", 30,
      ["john@mergington.edu", "olivia@mergington.edu"]⟩),
    ("Math Club", ⟨"Solve challenging problems and participate in math competitions",
      "Tuesdays, 3:30 PM - 4:30 PM", 10,
      ["benjamin@mergington.edu", "james@mergington.edu"]⟩),
    ("Programming Class", ⟨"Learn programming fundamentals and build software projects",
      "Tuesdays and Thursdays, 3:30 PM - 4:30 PM", 20,
      ["emma@mergington.edu", "sophia@mergington.edu"]⟩),
    ("Soccer Team", ⟨"Join the school soccer team and compete in matches",
      "Tuesdays and Thursdays, 4:00 PM - 5:30 PM", 22,
      ["liam@mergington.edu", "noah@mergington.edu"]⟩) ]

theorem emailLE_total (o1 o2 : Option String) :
    emailLE o1 o2 = true ∨ emailLE o2 o1 = true := by
  cases o1 with
  | none => exact Or.inl rfl
  | some x =>
    cases o2 with
    | none => exact Or.inr rfl
    | some y => exact strLE_total x y

theorem emailLE_trans (o1 o2 o3 : Option String) (h12 : emailLE o1 o2 = true)
    (h23 : emailLE o2 o3 = true) : emailLE o1 o3 = true := by
  cases o1 with
  | none => rfl
  | some x =>
    cases o2 with
    | none => simp [emailLE] at h12
    | some y =>
      cases o3 with
      | none => simp [emailLE] at h23
      | some z => exact strLE_trans x y z h12 h23

theorem rowLE_total (r1 r2 : JoinRow) : rowLE r1 r2 = true ∨ rowLE r2 r1 = true := by
  by_cases h : r1.name = r2.name
  · have h1 : (r1.name == r2.name) = true := beq_iff_eq.mpr h
    have h2 : (r2.name == r1.name) = true := beq_iff_eq.mpr h.symm
    simp only [rowLE, h1, h2, if_true]
    exact emailLE_total _ _
  · have h1 : (r1.name == r2.name) = false := beq_false_of_ne h
    have h2 : (r2.name == r1.name) = false := beq_false_of_ne (fun hh => h hh.symm)
    simp only [rowLE, h1, h2, Bool.false_eq_true, if_false]
    exact strLE_total _ _

theorem rowLE_trans (r1 r2 r3 : JoinRow) (h12 : rowLE r1 r2 = true)
    (h23 : rowLE r2 r3 = true) : rowLE r1 r3 = true := by
  unfold rowLE at h12 h23 ⊢
  by_cases e12 : r1.name = r2.name <;> by_cases e23 : r2.name = r3.name
  · have e13 : r1.name = r3.name := e12.trans e23
    rw [if_pos (beq_iff_eq.mpr e12)] at h12
    rw [if_pos (beq_iff_eq.mpr e23)] at h23
    rw [if_pos (beq_iff_eq.mpr e13)]
    exact emailLE_trans _ _ _ h12 h23
  · have e13 : ¬(r1.name = r3.name) := fun hh => e23 (e12.symm.trans hh)
    rw [if_neg (fun hh => e23 (beq_iff_eq.mp hh))] at h23
    rw [if_neg (fun hh => e13 (beq_iff_eq.mp hh))]
    rw [e12]
    exact h23
  · have e13 : ¬(r1.name = r3.name) := fun hh => e12 (hh.trans e23.symm)
    rw [if_neg (fun hh => e12 (beq_iff_eq.mp hh))] at h12
    rw [if_neg (fun hh => e13 (beq_iff_eq.mp hh))]
    rw [← e23]
    exact h12
  · rw [if_neg (fun hh => e12 (beq_iff_eq.mp hh))] at h12
    rw [if_neg (fun hh => e23 (beq_iff_eq.mp hh))] at h23
    by_cases e13 : r1.name = r3.name
    · exfalso
      have h12' : strLE r3.name r2.name = true := e13 ▸ h12
      exact e23 (strLE_antisymm _ _ h23 h12')
    · rw [if_neg (fun hh => e13 (beq_iff_eq.mp hh))]
      exact strLE_trans _ _ _ h12 h23

/-- A truthy email cell names the row's email value. -/
theorem mem_emailCell (o : Option String) (x : String) (hx : x ∈ emailCell o) :
    o = some x := by
  cases o with
  | none => simp [emailCell] at hx
  | some e =>
    by_cases he : e = ""
    · simp [emailCell, he] at hx
    · have hcell : emailCell (some e) = [e] := by
        simp [emailCell, he]
      rw [hcell] at hx
      simp at hx
      rw [hx]

/-- Concatenating the truthy email cells of rows whose email options are
pairwise ordered yields an email list that is pairwise ordered. -/
theorem pairwise_flatMap_emailCell (rows : List JoinRow)
    (h : rows.Pairwise (fun r1 r2 => emailLE r1.email r2.email = true)) :
    (rows.flatMap (fun r => emailCell r.email)).Pairwise (fun x y => strLE x y = true) := by
  induction rows with
  | nil => simp
  | cons r rows ih =>
    rcases List.pairwise_cons.mp h with ⟨hr, hrow⟩
    simp only [List.flatMap_cons]
    rw [List.pairwise_append]
    refine ⟨?_, ih hrow, ?_⟩
    · cases hre : r.email with
      | none => simp [emailCell]
      | some e =>
        by_cases he : e = "" <;> simp [emailCell, he]
    · intro x hx y hy
      rcases List.mem_flatMap.mp hy with ⟨r2, hr2, hy2⟩
      have hx' := mem_emailCell _ _ hx
      have hy' := mem_emailCell _ _ hy2
      have hle := hr r2 hr2
      rw [hx', hy'] at hle
      exact hle

/-- C5: every participant list `get_activities` produces is sorted
ascending by email; on the fresh store the listing is exactly the nine
built-in activities with their documented rosters, e.g. "Chess Club" lists
daniel before michael although the catalog writes michael first. -/
theorem participants_sorted_and_fresh_catalog :
    (∀ (db : DB) (name : String) (info : ActivityInfo),
      (get_activities db).lookup name = some info →
      info.participants.Pairwise (fun x y => strLE x y = true))
    ∧ initialize_database initialMigrations emptyDB = .ok freshDB
    ∧ get_activities freshDB = freshCatalog
    ∧ (get_activities freshDB).lookup "Chess Club"
        = some ⟨"Learn strategies and compete in chess tournaments",
            "Fridays, 3:30 PM - 5:00 PM", 12,
            ["daniel@mergington.edu", "michael@mergington.edu"]⟩ := by
  refine ⟨?_, rfl, by decide, by decide⟩
  intro db name info h
  unfold get_activities at h
  rw [lookup_foldl_insertRow name (queryRows db) []] at h
  simp only [List.lookup_nil] at h
  rcases hfind : (queryRows db).find? (fun r => r.name == name) with _ | r0
  · rw [hfind] at h
    simp at h
  · rw [hfind] at h
    simp only [Option.map_some'] at h
    injection h with h'
    rw [← h']
    have hsorted : (queryRows db).Pairwise (fun a b => rowLE a b = true) :=
      pairwise_sortBy rowLE rowLE_total rowLE_trans (allRows db)
    have hfsub : ((queryRows db).filter (fun r => r.name == name)).Pairwise
        (fun a b => rowLE a b = true) :=
      List.Pairwise.sublist (List.filter_sublist _) hsorted
    have hemail : ((queryRows db).filter (fun r => r.name == name)).Pairwise
        (fun r1 r2 => emailLE r1.email r2.email = true) := by
      refine List.Pairwise.imp_of_mem ?_ hfsub
      intro r1 r2 h1 h2 hle
      have e1 : r1.name = name := by simpa using (List.mem_filter.mp h1).2
      have e2 : r2.name = name := by simpa using (List.mem_filter.mp h2).2
      rw [rowLE, if_pos (beq_iff_eq.mpr (e1.trans e2.symm))] at hle
      exact hle
    have hflat := pairwise_flatMap_emailCell _ hemail
    simpa [gatherEmails] using hflat

/-- Witness for `participants_sorted_and_fresh_catalog`: the fresh store's
"Chess Club" roster is pairwise email-ordered. -/
theorem participants_sorted_witness :
    List.Pairwise (fun x y => strLE x y = true)
      ["daniel@mergington.edu", "michael@mergington.edu"] :=
  participants_sorted_and_fresh_catalog.1 freshDB "Chess Club"
    ⟨"Learn strategies and compete in chess tournaments",
     "Fridays, 3:30 PM - 5:00 PM", 12,
     ["daniel@mergington.edu", "michael@mergington.edu"]⟩ (by decide)

/-- Seeding never touches the `schema_migrations` table. -/
theorem seed_migrations (db : DB) : (_seed_default_data db).migrations = db.migrations := by
  by_cases h : db.activities = []
  · rw [seed_of_empty db h]
  · rw [seed_of_nonempty db h]

/-- After seeding the `activities` table is never empty: either it already
held a row or the nine catalog rows were just inserted. -/
theorem seed_activities_ne_nil (db : DB) : (_seed_default_data db).activities ≠ [] := by
  by_cases h : db.activities = []
  · rw [seed_of_empty db h]
    simp [seededActivities]
  · rw [seed_of_nonempty db h]
    exact h

/-- The migration runner, on success, appends to the version table exactly
the sorted not-yet-recorded versions, in order (scripts do not touch the
version table themselves). -/
theorem applyScriptsFrom_migrations (applied : List String) :
    ∀ (l : List MigrationScript) (db db' : DB),
    (∀ p ∈ l, ∀ d d' : DB, p.2 d = .ok d' → d'.migrations = d.migrations) →
    applyScriptsFrom applied l db = .ok db' →
    db'.migrations = db.migrations
      ++ (l.map (fun p => p.1)).filter (fun v => !(applied.contains v)) := by
  intro l
  induction l with
  | nil =>
    intro db db' _ h
    simp only [applyScriptsFrom] at h
    injection h with h'
    rw [← h']
    simp
  | cons p rest ih =>
    rcases p with ⟨v, f⟩
    intro db db' hpres h
    simp only [applyScriptsFrom] at h
    by_cases hv : v ∈ applied
    · rw [if_pos hv] at h
      have := ih db db' (fun q hq => hpres q (List.mem_cons_of_mem _ hq)) h
      simpa [List.filter_cons, hv] using this
    · rw [if_neg hv] at h
      cases hf : f db with
      | error e =>
        rw [hf] at h
        exact absurd h (by simp)
      | ok db1 =>
        rw [hf] at h
        have hmig1 : db1.migrations = db.migrations :=
          hpres (v, f) (List.mem_cons_self _ _) db db1 hf
        have ih' := ih { db1 with migrations := db1.migrations ++ [v] } db'
          (fun q hq => hpres q (List.mem_cons_of_mem _ hq)) h
        simp only at ih'
        rw [ih', hmig1]
        simp [List.filter_cons, hv, List.append_assoc]

/-- A never-recorded script that always raises makes the whole migration
pass raise. -/
theorem applyScriptsFrom_fails (applied : List String) :
    ∀ (l : List MigrationScript) (db : DB) (v : String) (f : DB → Except Unit DB),
    (v, f) ∈ l → v ∉ applied → (∀ d, f d = .error ()) →
    applyScriptsFrom applied l db = .error () := by
  intro l
  induction l with
  | nil =>
    intro db v f hmem
    simp at hmem
  | cons p rest ih =>
    rcases p with ⟨w, g⟩
    intro db v f hmem hnv hfail
    rcases List.mem_cons.mp hmem with heq | hmem'
    · have hw : v = w := (Prod.ext_iff.mp heq).1
      have hg : f = g := (Prod.ext_iff.mp heq).2
      subst hw
      subst hg
      simp only [applyScriptsFrom]
      rw [if_neg hnv, hfail db]
    · simp only [applyScriptsFrom]
      by_cases hw : w ∈ applied
      · rw [if_pos hw]
        exact ih db v f hmem' hnv hfail
      · rw [if_neg hw]
        cases hg : g db with
        | error e => cases e; rfl
        | ok db1 => exact ih _ v f hmem' hnv hfail

/-- Skipping: when every version of the directory is already recorded the
runner leaves the store untouched. -/
theorem applyScriptsFrom_skips (applied : List String) :
    ∀ (l : List MigrationScript) (db : DB),
    (∀ p ∈ l, p.1 ∈ applied) → applyScriptsFrom applied l db = .ok db := by
  intro l
  induction l with
  | nil => intro db _; rfl
  | cons p rest ih =>
    rcases p with ⟨v, f⟩
    intro db hall
    simp only [applyScriptsFrom]
    rw [if_pos (hall (v, f) (List.mem_cons_self _ _))]
    exact ih db (fun q hq => hall q (List.mem_cons_of_mem _ hq))

/-- The versions a run of the migration pass records on `db`: the sorted
filenames not yet in the version table. -/
def versionsToApply (scripts : List MigrationScript) (db : DB) : List String :=
  ((sortScripts scripts).map (fun p => p.1)).filter (fun v => !(db.migrations.contains v))

/-- Initialization on a store with all versions recorded and a non-empty
activities table is a no-op (helper for the idempotence claim). -/
theorem initialize_noop (scripts : List MigrationScript)
    (db : DB) (hall : ∀ p ∈ scripts, p.1 ∈ db.migrations) (hne : db.activities ≠ []) :
    initialize_database scripts db = .ok db := by
  have hallSorted : ∀ p ∈ sortScripts scripts, p.1 ∈ db.migrations :=
    fun p hp => hall p ((sortBy_perm _ scripts).mem_iff.mp hp)
  have hm := applyScriptsFrom_skips db.migrations (sortScripts scripts) db hallSorted
  unfold initialize_database _apply_migrations
  rw [hm]
  simp only [Except.map]
  rw [seed_of_nonempty db hne]

/-- C7: the migration runner records versions in lexical filename order,
skipping the already recorded ones; and a not-yet-recorded script that
fails mid-execution makes the whole initialization raise — the enclosing
transaction is rolled back, so no version row for it survives and (its
version still being absent) the next initialization retries the same
script.  Scripts are assumed not to write the version table themselves. -/
theorem migration_runner_spec (scripts : List MigrationScript) (db : DB)
    (hpres : ∀ p ∈ scripts, ∀ d d' : DB, p.2 d = .ok d' → d'.migrations = d.migrations) :
    (∀ db', _apply_migrations scripts db = .ok db' →
      db'.migrations = db.migrations ++ versionsToApply scripts db)
    ∧ (∀ v f, (v, f) ∈ scripts → v ∉ db.migrations → (∀ d, f d = .error ()) →
      _apply_migrations scripts db = .error ()
      ∧ initialize_database scripts db = .error ()) := by
  constructor
  · intro db' h
    have hpres' : ∀ p ∈ sortScripts scripts, ∀ d d' : DB, p.2 d = .ok d' →
        d'.migrations = d.migrations :=
      fun p hp => hpres p ((sortBy_perm _ scripts).mem_iff.mp hp)
    exact applyScriptsFrom_migrations db.migrations (sortScripts scripts) db db' hpres' h
  · intro v f hmem hnv hfail
    have hmem' : (v, f) ∈ sortScripts scripts := (sortBy_perm _ scripts).mem_iff.mpr hmem
    have h1 : _apply_migrations scripts db = .error () :=
      applyScriptsFrom_fails db.migrations (sortScripts scripts) db v f hmem' hnv hfail
    refine ⟨h1, ?_⟩
    unfold initialize_database
    rw [h1]
    rfl

/-- A script whose execution always raises a SQL error. -/
def brokenScript : MigrationScript := ("002_broken.sql", fun _ => .error ())

/-- Witness for `migration_runner_spec`: on a fresh store whose directory
holds the initial script and a broken one, the run records the initial
version first (sorted order), and the broken directory alone makes
initialization raise. -/
theorem migration_runner_spec_witness :
    ["001_initial.sql", "002_broken.sql"]
      = emptyDB.migrations ++ versionsToApply [brokenScript, ("001_initial.sql", fun db => .ok db)] emptyDB
    ∧ _apply_migrations [brokenScript] emptyDB = .error ()
    ∧ initialize_database [brokenScript] emptyDB = .error () := by
  have hpres : ∀ p ∈ [brokenScript], ∀ d d' : DB, p.2 d = .ok d' →
      d'.migrations = d.migrations := by
    intro p hp d d' hok
    have hp' : p = brokenScript := by simpa using hp
    subst hp'
    simp [brokenScript] at hok
  have h2 := (migration_runner_spec [brokenScript] emptyDB hpres).2 "002_broken.sql"
    (fun _ => .error ()) (List.mem_singleton.mpr rfl) (by simp [emptyDB]) (fun d => rfl)
  exact ⟨by decide, h2⟩

/-- C6: initialization is idempotent: with every script version recorded
and a non-empty activities table it is a no-op on the store, and a second
run right after initializing a fresh store returns exactly the state the
first run produced.  Scripts are assumed not to write the version table
themselves. -/
theorem init_idempotent (scripts : List MigrationScript)
    (hpres : ∀ p ∈ scripts, ∀ d d' : DB, p.2 d = .ok d' → d'.migrations = d.migrations) :
    (∀ db : DB, (∀ p ∈ scripts, p.1 ∈ db.migrations) → db.activities ≠ [] →
      initialize_database scripts db = .ok db)
    ∧ (∀ db1 : DB, initialize_database scripts emptyDB = .ok db1 →
      initialize_database scripts db1 = .ok db1) := by
  constructor
  · intro db hall hne
    exact initialize_noop scripts db hall hne
  · intro db1 h
    unfold initialize_database at h
    cases hm : _apply_migrations scripts emptyDB with
    | error e =>
      rw [hm] at h
      simp [Except.map] at h
    | ok db2 =>
      rw [hm] at h
      simp only [Except.map] at h
      injection h with h'
      have hmig2 : db2.migrations = emptyDB.migrations ++ versionsToApply scripts emptyDB := by
        have hpres' : ∀ p ∈ sortScripts scripts, ∀ d d' : DB, p.2 d = .ok d' →
            d'.migrations = d.migrations :=
          fun p hp => hpres p ((sortBy_perm _ scripts).mem_iff.mp hp)
        exact applyScriptsFrom_migrations emptyDB.migrations (sortScripts scripts)
          emptyDB db2 hpres' hm
      have hrec : ∀ p ∈ scripts, p.1 ∈ db2.migrations := by
        intro p hp
        rw [hmig2]
        simp only [emptyDB, List.nil_append]
        refine List.mem_filter.mpr ⟨?_, ?_⟩
        · exact List.mem_map.mpr ⟨p, (sortBy_perm _ scripts).mem_iff.mpr hp, rfl⟩
        · simp [emptyDB]
      have hmig1 : db1.migrations = db2.migrations := by
        rw [← h']
        exact seed_migrations db2
      have hne : db1.activities ≠ [] := by
        rw [← h']
        exact seed_activities_ne_nil db2
      exact initialize_noop scripts db1 (fun p hp => hmig1 ▸ hrec p hp) hne

/-- Witness for `init_idempotent`: re-initializing the freshly initialized
store returns it unchanged. -/
theorem init_idempotent_witness :
    initialize_database initialMigrations freshDB = .ok freshDB := by
  have hpres : ∀ p ∈ initialMigrations, ∀ d d' : DB, p.2 d = .ok d' →
      d'.migrations = d.migrations := by
    intro p hp d d' hok
    have hp' : p = ("001_initial.sql", fun db => .ok db) := by
      simpa [initialMigrations] using hp
    subst hp'
    simp only at hok
    injection hok with h'
    rw [← h']
  exact (init_idempotent initialMigrations hpres).2 freshDB rfl

/-- Lifecycle events of the connection/transaction resource one operation's
`with _get_connection() as connection:` block produces. -/
inductive ResourceEvent where
  | acquire
  | commit
  | rollback
  | close
deriving Repr, DecidableEq

/-- Resource trace of `signup_for_activity`: `_get_connection()` acquires;
on the success path the explicit `connection.commit()` runs and the
`with` exit commits again; on a raise the `with` exit rolls back.  Python's
sqlite3 connection context manager commits or rolls back but never closes
the connection, so no close event exists on any path. -/
def signup_trace (db : DB) (activity_name email : String) : List ResourceEvent :=
  match signup_for_activity db activity_name email with
  | .ok _ => [.acquire, .commit, .commit]
  | .error _ => [.acquire, .rollback]

/-- Resource trace of `unregister_from_activity` (same block structure as
signup). -/
def unregister_trace (db : DB) (activity_name email : String) : List ResourceEvent :=
  match unregister_from_activity db activity_name email with
  | .ok _ => [.acquire, .commit, .commit]
  | .error _ => [.acquire, .rollback]

/-- Resource trace of `get_activities`: acquire, then the `with` exit
commits (the read raises no domain error); again no close. -/
def get_activities_trace (_db : DB) : List ResourceEvent :=
  [.acquire, .commit]

/-- C8 counterexample: on the ActivityNotFound error path of Enroll the
trace ends with the context manager's rollback and contains no close event
— the sqlite3 connection context manager ends the transaction but does not
close the connection — and no path of any of the three operations ever
emits a close. -/
theorem connection_never_closed_counterexample :
    signup_trace emptyDB "Chess Club" "student@mergington.edu"
      = [.acquire, .rollback]
    ∧ ResourceEvent.close ∉ signup_trace emptyDB "Chess Club" "student@mergington.edu"
    ∧ ResourceEvent.close ∉ unregister_trace emptyDB "Chess Club" "student@mergington.edu"
    ∧ ResourceEvent.close ∉ get_activities_trace emptyDB := by
  refine ⟨rfl, by decide, by decide, by decide⟩

/-- C8 (amended): each of the three operations acquires its
connection/transaction-scoped resource and ends the transaction on every
exit path — commit on success, rollback on each domain-error path — but
the resource is never closed by the operation (sqlite3's connection
context manager does not close). -/
theorem transaction_scoped_release (db : DB) (A e : String) :
    (∀ d, signup_for_activity db A e = .ok d →
      signup_trace db A e = [.acquire, .commit, .commit])
    ∧ (∀ err, signup_for_activity db A e = .error err →
      signup_trace db A e = [.acquire, .rollback])
    ∧ (∀ d, unregister_from_activity db A e = .ok d →
      unregister_trace db A e = [.acquire, .commit, .commit])
    ∧ (∀ err, unregister_from_activity db A e = .error err →
      unregister_trace db A e = [.acquire, .rollback])
    ∧ get_activities_trace db = [.acquire, .commit]
    ∧ ResourceEvent.close ∉ signup_trace db A e
    ∧ ResourceEvent.close ∉ unregister_trace db A e
    ∧ ResourceEvent.close ∉ get_activities_trace db := by
  refine ⟨?_, ?_, ?_, ?_, rfl, ?_, ?_, by simp [get_activities_trace]⟩
  · intro d h
    simp [signup_trace, h]
  · intro err h
    simp [signup_trace, h]
  · intro d h
    simp [unregister_trace, h]
  · intro err h
    simp [unregister_trace, h]
  · cases h : signup_for_activity db A e <;> simp [signup_trace, h]
  · cases h : unregister_from_activity db A e <;> simp [unregister_trace, h]

/-- Witness for `transaction_scoped_release`: a successful signup's trace
commits, and a NotEnrolled unregister's trace rolls back. -/
theorem transaction_scoped_release_witness :
    signup_trace dbA "Chess Club" "zoe@mergington.edu"
      = [.acquire, .commit, .commit]
    ∧ unregister_trace dbA "Chess Club" "zoe@mergington.edu"
      = [.acquire, .rollback] := by
  constructor
  · exact (transaction_scoped_release dbA "Chess Club" "zoe@mergington.edu").1
      { dbA with enrollments := dbA.enrollments ++ [⟨1, "zoe@mergington.edu"⟩] } (by rfl)
  · exact (transaction_scoped_release dbA "Chess Club" "zoe@mergington.edu").2.2.2.1
      (.notSignedUpError, dbA) (by rfl)

end SchoolDB
